import Mathlib

/-!
Shallow embedding of the CppBorrowChecker runtime borrow registry and the
access handles built on it.

Two registry variants are embedded:
* the hash-map registry of `v2.h` (`BorrowChecker` over `std::unordered_map`),
  modelled as an association list with address `0` playing the role of
  `nullptr`;
* the fixed-capacity array registry of the unnamed source file
  (`BorrowChecker<T, N>` over `std::array<PtrState, N>`), modelled as a list
  of slots where a slot with address `0` is an empty slot.

Handle operations that can throw are modelled with an explicit result type:
`none` stands for a failed `assert` / `__builtin_unreachable()` (a fatal,
non-recoverable trap with no defined successor state), `some (.error (msg, r))`
stands for a thrown `std::runtime_error`/`std::logic_error` carrying the
message and the registry contents at the moment of the throw, and
`some (.ok r)` stands for normal completion with updated registry `r`.
-/

inductive BorrowState
  | Valid
  | Invalid
  | MutableBorrowed
  | Owned
deriving DecidableEq, Repr

/-- Hash-map registry state (`std::unordered_map<void *, BorrowState>`),
modelled as an association list whose keys are addresses; address `0` is
`nullptr`. -/
abbrev Reg := List (Nat × BorrowState)

/-- `borrow_map_.find(ptr)`: the state stored for `a`, if an entry exists. -/
def mapFind : Reg → Nat → Option BorrowState
  | [], _ => none
  | (k, v) :: rest, a => if k = a then some v else mapFind rest a

/-- `borrow_map_.erase(it)` for the entry found for `a`: remove the first
entry with key `a`. -/
def eraseKey : Reg → Nat → Reg
  | [], _ => []
  | (k, v) :: rest, a => if k = a then rest else (k, v) :: eraseKey rest a

/-- v2.h `BorrowChecker::add_borrow`: `assert(borrow_map_.count(ptr) == 0)`
then insert.  The assertion failure is modelled as `none`. -/
def addBorrow (m : Reg) (a : Nat) (s : BorrowState) : Option Reg :=
  if mapFind m a = none then some ((a, s) :: m) else none

/-- v2.h `BorrowChecker::remove_borrow`: erase the entry if present, silently
return otherwise (permissive variant). -/
def removeBorrow (m : Reg) (a : Nat) : Reg :=
  match mapFind m a with
  | none => m
  | some _ => eraseKey m a

/-- v2.h `BorrowChecker::check_borrow`: stored state, or `Valid` when the
address has no entry. -/
def checkBorrow (m : Reg) (a : Nat) : BorrowState :=
  match mapFind m a with
  | none => .Valid
  | some s => s

/-- v2.h `BorrowChecker::set_owned`: if an entry exists, overwrite its state
with `Owned`; no-op otherwise. -/
def setOwned : Reg → Nat → Reg
  | [], _ => []
  | (k, v) :: rest, a =>
    if k = a then (k, .Owned) :: rest else (k, v) :: setOwned rest a

/-- v2.h `BorrowChecker::check_owned`: an entry exists and its state is
`Owned`. -/
def checkOwned (m : Reg) (a : Nat) : Bool :=
  match mapFind m a with
  | none => false
  | some s => decide (s = .Owned)

/-- One slot of the fixed-capacity array registry: `(ptr, state)`, with
`ptr = 0` meaning an empty slot. -/
abbrev Slot := Nat × BorrowState

/-- Fixed-capacity array registry state (`std::array<PtrState, N>`). -/
abbrev Arr := List Slot

/-- A fresh array registry of capacity `n`: every slot empty
(`borrow_map_{}` value-initialises each slot to `(nullptr, Valid)`). -/
def emptyArr (n : Nat) : Arr := List.replicate n (0, .Valid)

/-- Array-variant `add_borrow`: write `(ptr, state)` into the first empty
slot; reaching the end of the array is `__builtin_unreachable()`, modelled as
`none`. -/
def addBorrowV3 : Arr → Nat → BorrowState → Option Arr
  | [], _, _ => none
  | (p, st) :: rest, a, s =>
    if p = 0 then some ((a, s) :: rest)
    else
      match addBorrowV3 rest a s with
      | some rest' => some ((p, st) :: rest')
      | none => none

/-- Array-variant `remove_borrow`: reset the first slot whose pointer matches
to `(nullptr, Valid)`; no-op when no slot matches. -/
def removeBorrowV3 : Arr → Nat → Arr
  | [], _ => []
  | (p, st) :: rest, a =>
    if p = a then (0, .Valid) :: rest else (p, st) :: removeBorrowV3 rest a

/-- The per-slot state computed by the array-variant `check_borrow_impl`:
`Valid` for an empty slot, the stored state for a matching slot, `Valid`
otherwise. -/
def slotState (a : Nat) (s : Slot) : BorrowState :=
  if s.1 = 0 then .Valid else if s.1 = a then s.2 else .Valid

/-- Array-variant `check_borrow`: the first per-slot state different from
`Valid`, or `Valid` when every slot reports `Valid`. -/
def checkBorrowV3 : Arr → Nat → BorrowState
  | [], _ => .Valid
  | s :: rest, a =>
    if slotState a s = .Valid then checkBorrowV3 rest a else slotState a s

/-- Array-variant `set_owned`: overwrite the state of the first slot whose
pointer matches with `Owned`; no-op when no slot matches. -/
def setOwnedV3 : Arr → Nat → Arr
  | [], _ => []
  | (p, st) :: rest, a =>
    if p = a then (p, .Owned) :: rest else (p, st) :: setOwnedV3 rest a

/-- Array-variant `check_owned`: the state of the first slot whose pointer
matches is `Owned`; `false` when no slot matches. -/
def checkOwnedV3 : Arr → Nat → Bool
  | [], _ => false
  | (p, st) :: rest, a =>
    if p = a then decide (st = .Owned) else checkOwnedV3 rest a

/-- Observer for stating theorems: the state stored in the first slot whose
pointer matches `a`, if any (the entry the linear scans of
`remove_borrow`/`set_owned`/`check_owned` operate on). -/
def arrFind : Arr → Nat → Option BorrowState
  | [], _ => none
  | (p, st) :: rest, a => if p = a then some st else arrFind rest a

/-- Observer for stating theorems: how many slots of the array registry hold
the pointer `a` (for `a ≠ 0`, the number of simultaneous entries for `a`). -/
def liveCount : Arr → Nat → Nat
  | [], _ => 0
  | (p, _) :: rest, a => (if p = a then 1 else 0) + liveCount rest a

/-- Result of a handle operation: `none` = failed assertion or
`__builtin_unreachable()` (fatal trap), `some (.error (msg, r))` = thrown
exception with message `msg` while the registry holds `r`, `some (.ok r)` =
success leaving the registry at `r`. -/
abbrev HandleRes (σ : Type) := Option (Except (String × σ) σ)

/-- v2.h `Ref::Ref(T *, BorrowChecker *)`: assert the data pointer is not
null, then `add_borrow(data_, Valid)` (which itself asserts the address is
not yet registered).  No borrow-state check is performed. -/
def refNew (bc : Reg) (a : Nat) : HandleRes Reg :=
  if a = 0 then none
  else
    match addBorrow bc a .Valid with
    | none => none
    | some bc' => some (.ok bc')

/-- v2.h `Ref::~Ref`: `remove_borrow(data_)` unless the handle was moved from
(`data_ == nullptr`). -/
def refDrop (bc : Reg) (a : Nat) : Reg :=
  if a = 0 then bc else removeBorrow bc a

/-- v2.h `MutableRef::MutableRef`: throw
`"cannot borrow as mutable more than once, already borrowed"` when
`check_borrow(data_) != Valid`, otherwise `add_borrow(data_,
MutableBorrowed)`. -/
def mutRefNew (bc : Reg) (a : Nat) : HandleRes Reg :=
  if checkBorrow bc a ≠ .Valid then
    some (.error ("cannot borrow as mutable more than once, already borrowed",
      bc))
  else
    match addBorrow bc a .MutableBorrowed with
    | none => none
    | some bc' => some (.ok bc')

/-- v2.h `MutableRef::~MutableRef`: unconditional `remove_borrow(data_)`. -/
def mutRefDrop (bc : Reg) (a : Nat) : Reg := removeBorrow bc a

/-- v2.h `Ref::operator=(Ref &&)`, body of the `this != &other` branch:
throw `"cannot move value while it is borrowed"` when
`check_borrow(other.data_) != Valid`; otherwise `remove_borrow(data_)`, take
over `other.data_` and `add_borrow` it as `Valid`. -/
def refMoveAssign (bc : Reg) (selfD otherD : Nat) : HandleRes Reg :=
  if checkBorrow bc otherD ≠ .Valid then
    some (.error ("cannot move value while it is borrowed", bc))
  else
    match addBorrow (removeBorrow bc selfD) otherD .Valid with
    | none => none
    | some bc' => some (.ok bc')

/-- Array-variant `Ref::Ref(T *, BorrowChecker *)`: throw
`"Invalid borrow in Ref constructor"` when `check_borrow(data_) != Valid`,
otherwise `add_borrow(data_, Valid)`. -/
def refV3New (bc : Arr) (a : Nat) : HandleRes Arr :=
  if checkBorrowV3 bc a ≠ .Valid then
    some (.error ("Invalid borrow in Ref constructor", bc))
  else
    match addBorrowV3 bc a .Valid with
    | none => none
    | some bc' => some (.ok bc')

/-- The part of an `Own<T, N>` handle the registry semantics depends on: the
held address (`data_`, `0` = `nullptr`) and the `is_owner_` flag. -/
structure OwnH where
  data : Nat
  owner : Bool
deriving DecidableEq, Repr

/-- Array-variant `Own` move constructor: the destination takes the address
and owner flag, the source is left with `data_ = nullptr` and
`is_owner_ = false`.  Returns `(destination, moved-from source)`. -/
def ownMove (o : OwnH) : OwnH × OwnH :=
  (⟨o.data, o.owner⟩, ⟨0, false⟩)

/-- Array-variant `Own::is_owner`: `is_owner_ && check_owned(data_)`. -/
def ownIsOwner (bc : Arr) (o : OwnH) : Bool :=
  o.owner && checkOwnedV3 bc o.data

/-- Array-variant `Own::~Own`: when still the owner, `remove_borrow(data_)`
and `delete data_`.  Returns the registry afterwards and whether the pointee
was freed. -/
def ownDrop (bc : Arr) (o : OwnH) : Arr × Bool :=
  if o.owner then (removeBorrowV3 bc o.data, true) else (bc, false)

/-- Array-variant `Own::set_owned`: throw `"setting owned of borrowed data"`
when `check_borrow(data_) != Valid`; otherwise `set_owned(data_)` in the
registry and set `is_owner_ = true`. -/
def ownSetOwned (bc : Arr) (o : OwnH) : Except (String × Arr) (Arr × OwnH) :=
  if checkBorrowV3 bc o.data ≠ .Valid then
    .error ("setting owned of borrowed data", bc)
  else
    .ok (setOwnedV3 bc o.data, ⟨o.data, true⟩)

/-- The registry operations named by the spec: `register`, `unregister`,
`mark_owned`. -/
inductive RegOp
  | register (a : Nat) (s : BorrowState)
  | unregister (a : Nat)
  | markOwned (a : Nat)

/-- The address an operation acts on. -/
def RegOp.addr : RegOp → Nat
  | .register a _ => a
  | .unregister a => a
  | .markOwned a => a

/-- One registry operation on the hash-map variant; `none` when
`add_borrow`'s assertion fires. -/
def mapStep (m : Reg) : RegOp → Option Reg
  | .register a s => addBorrow m a s
  | .unregister a => some (removeBorrow m a)
  | .markOwned a => some (setOwned m a)

/-- Run a sequence of registry operations on the hash-map variant; the flag
is `false` when a fatal assertion stopped the run. -/
def runMap (m : Reg) : List RegOp → Reg × Bool
  | [] => (m, true)
  | op :: rest =>
    match mapStep m op with
    | some m' => runMap m' rest
    | none => (m, false)

/-- One registry operation on the array variant; `none` when `add_borrow`
runs out of capacity. -/
def arrStep (l : Arr) : RegOp → Option Arr
  | .register a s => addBorrowV3 l a s
  | .unregister a => some (removeBorrowV3 l a)
  | .markOwned a => some (setOwnedV3 l a)

/-- Run a sequence of registry operations on the array variant; the flag is
`false` when capacity exhaustion stopped the run. -/
def runArr (l : Arr) : List RegOp → Arr × Bool
  | [] => (l, true)
  | op :: rest =>
    match arrStep l op with
    | some l' => runArr l' rest
    | none => (l, false)

/-- Simulation relation between a hash-map registry state and an array
registry state: both store the same entry for every nonzero address, the map
has no entry for `nullptr` and no duplicate keys, the array holds at most one
live slot per nonzero address, and every empty array slot carries state
`Valid`. -/
def SimInv (m : Reg) (l : Arr) : Prop :=
  (∀ a, a ≠ 0 → mapFind m a = arrFind l a)
  ∧ (∀ p ∈ m, p.1 ≠ 0)
  ∧ (m.map Prod.fst).Nodup
  ∧ (∀ a, a ≠ 0 → liveCount l a ≤ 1)
  ∧ (∀ p ∈ l, p.1 = 0 → p.2 = .Valid)

/-! ### Lemmas about the hash-map registry -/

theorem mapFind_eq_none_iff (m : Reg) (a : Nat) :
    mapFind m a = none ↔ a ∉ m.map Prod.fst := by
  induction m with
  | nil => simp [mapFind]
  | cons p rest ih =>
    obtain ⟨k, v⟩ := p
    by_cases h : k = a
    · subst h
      simp [mapFind]
    · simp [mapFind, h, ih, Ne.symm h]

theorem eraseKey_sublist (m : Reg) (a : Nat) : (eraseKey m a).Sublist m := by
  induction m with
  | nil => simp [eraseKey]
  | cons p rest ih =>
    obtain ⟨k, v⟩ := p
    by_cases h : k = a
    · rw [eraseKey, if_pos h]
      exact List.sublist_cons_self (k, v) rest
    · rw [eraseKey, if_neg h]
      exact ih.cons₂ (k, v)

theorem eraseKey_keys_sublist (m : Reg) (a : Nat) :
    ((eraseKey m a).map Prod.fst).Sublist (m.map Prod.fst) :=
  (eraseKey_sublist m a).map Prod.fst

theorem eraseKey_find_self (m : Reg) (a : Nat)
    (h : (m.map Prod.fst).Nodup) : mapFind (eraseKey m a) a = none := by
  induction m with
  | nil => simp [eraseKey, mapFind]
  | cons p rest ih =>
    obtain ⟨k, v⟩ := p
    simp only [List.map_cons, List.nodup_cons] at h
    by_cases hk : k = a
    · subst hk
      simp only [eraseKey, if_pos rfl]
      rw [mapFind_eq_none_iff]
      exact h.1
    · simp only [eraseKey, if_neg hk, mapFind, if_neg hk]
      exact ih h.2

theorem eraseKey_find_other (m : Reg) (a x : Nat) (hx : x ≠ a) :
    mapFind (eraseKey m a) x = mapFind m x := by
  induction m with
  | nil => simp [eraseKey]
  | cons p rest ih =>
    obtain ⟨k, v⟩ := p
    by_cases hk : k = a
    · subst hk
      simp [eraseKey, mapFind, Ne.symm hx]
    · by_cases hkx : k = x
      · subst hkx
        simp [eraseKey, hk, mapFind]
      · simp [eraseKey, hk, mapFind, hkx, ih]

theorem removeBorrow_find_self (m : Reg) (a : Nat)
    (h : (m.map Prod.fst).Nodup) : mapFind (removeBorrow m a) a = none := by
  unfold removeBorrow
  cases hf : mapFind m a with
  | none => exact hf
  | some s => exact eraseKey_find_self m a h

theorem removeBorrow_find_other (m : Reg) (a x : Nat) (hx : x ≠ a) :
    mapFind (removeBorrow m a) x = mapFind m x := by
  unfold removeBorrow
  cases hf : mapFind m a with
  | none => rfl
  | some s => exact eraseKey_find_other m a x hx

theorem removeBorrow_keys_sublist (m : Reg) (a : Nat) :
    ((removeBorrow m a).map Prod.fst).Sublist (m.map Prod.fst) := by
  unfold removeBorrow
  cases mapFind m a with
  | none => exact List.Sublist.refl _
  | some s => exact eraseKey_keys_sublist m a

theorem removeBorrow_nodup (m : Reg) (a : Nat)
    (h : (m.map Prod.fst).Nodup) : ((removeBorrow m a).map Prod.fst).Nodup :=
  (removeBorrow_keys_sublist m a).nodup h

theorem removeBorrow_of_find_none (m : Reg) (a : Nat)
    (h : mapFind m a = none) : removeBorrow m a = m := by
  unfold removeBorrow
  rw [h]

theorem setOwned_find_self (m : Reg) (a : Nat) :
    mapFind (setOwned m a) a = (mapFind m a).map fun _ => BorrowState.Owned := by
  induction m with
  | nil => simp [setOwned, mapFind]
  | cons p rest ih =>
    obtain ⟨k, v⟩ := p
    by_cases hk : k = a
    · subst hk
      simp [setOwned, mapFind]
    · simp [setOwned, hk, mapFind, ih]

theorem setOwned_find_other (m : Reg) (a x : Nat) (hx : x ≠ a) :
    mapFind (setOwned m a) x = mapFind m x := by
  induction m with
  | nil => simp [setOwned]
  | cons p rest ih =>
    obtain ⟨k, v⟩ := p
    by_cases hk : k = a
    · subst hk
      have hkx : ¬ k = x := fun h => hx h.symm
      simp [setOwned, mapFind, hkx]
    · by_cases hkx : k = x
      · subst hkx
        simp [setOwned, hk, mapFind]
      · simp [setOwned, hk, mapFind, hkx, ih]

theorem setOwned_keys (m : Reg) (a : Nat) :
    (setOwned m a).map Prod.fst = m.map Prod.fst := by
  induction m with
  | nil => simp [setOwned]
  | cons p rest ih =>
    obtain ⟨k, v⟩ := p
    by_cases hk : k = a
    · simp [setOwned, hk]
    · simp [setOwned, hk, ih]

/-! ### Lemmas about the array registry -/

theorem arrFind_eq_none_iff_liveCount (l : Arr) (a : Nat) :
    arrFind l a = none ↔ liveCount l a = 0 := by
  induction l with
  | nil => simp [arrFind, liveCount]
  | cons p rest ih =>
    obtain ⟨q, st⟩ := p
    by_cases hq : q = a
    · simp [arrFind, hq, liveCount]
    · simp [arrFind, hq, liveCount, ih]

theorem checkBorrowV3_zero (l : Arr) : checkBorrowV3 l 0 = .Valid := by
  induction l with
  | nil => rfl
  | cons p rest ih =>
    obtain ⟨q, st⟩ := p
    by_cases hq : q = 0 <;> simp [checkBorrowV3, slotState, hq, ih]

theorem checkBorrowV3_of_find_none (l : Arr) (a : Nat)
    (h : arrFind l a = none) : checkBorrowV3 l a = .Valid := by
  induction l with
  | nil => rfl
  | cons p rest ih =>
    obtain ⟨q, st⟩ := p
    rw [arrFind] at h
    by_cases hq : q = a
    · rw [if_pos hq] at h
      exact absurd h (by simp)
    · rw [if_neg hq] at h
      by_cases hq0 : q = 0 <;> simp [checkBorrowV3, slotState, hq, hq0, ih h]

theorem checkBorrowV3_of_find_nonvalid (l : Arr) (a : Nat) (s : BorrowState)
    (ha : a ≠ 0) (hf : arrFind l a = some s) (hs : s ≠ .Valid) :
    checkBorrowV3 l a = s := by
  induction l with
  | nil => simp [arrFind] at hf
  | cons p rest ih =>
    obtain ⟨q, st⟩ := p
    rw [arrFind] at hf
    by_cases hq : q = a
    · rw [if_pos hq] at hf
      have hst : st = s := by simpa using hf
      subst hst hq
      have h0 : q ≠ 0 := fun h => ha (h ▸ rfl)
      simp [checkBorrowV3, slotState, h0, hs]
    · rw [if_neg hq] at hf
      by_cases hq0 : q = 0 <;>
        simp [checkBorrowV3, slotState, hq, hq0, ih hf]

theorem checkBorrowV3_eq_find (l : Arr) (a : Nat) (ha : a ≠ 0)
    (hc : liveCount l a ≤ 1) :
    checkBorrowV3 l a = (arrFind l a).getD .Valid := by
  induction l with
  | nil => rfl
  | cons q rest ih =>
    obtain ⟨p, st⟩ := q
    rw [liveCount] at hc
    by_cases hp : p = a
    · subst hp
      rw [if_pos rfl] at hc
      by_cases hst : st = .Valid
      · subst hst
        have hrest : arrFind rest p = none := by
          rw [arrFind_eq_none_iff_liveCount]
          omega
        simp [checkBorrowV3, slotState, arrFind, ha,
          checkBorrowV3_of_find_none rest p hrest]
      · simp [checkBorrowV3, slotState, arrFind, ha, hst]
    · rw [if_neg hp] at hc
      by_cases hp0 : p = 0 <;>
        simp [checkBorrowV3, slotState, arrFind, hp, hp0, Ne.symm ha,
          ih (by omega)]

theorem checkOwnedV3_eq_find (l : Arr) (a : Nat) :
    checkOwnedV3 l a =
      ((arrFind l a).map fun s => decide (s = .Owned)).getD false := by
  induction l with
  | nil => rfl
  | cons p rest ih =>
    obtain ⟨q, st⟩ := p
    by_cases hq : q = a <;> simp [checkOwnedV3, arrFind, hq, ih]

theorem addBorrowV3_none_iff (l : Arr) (a : Nat) (s : BorrowState) :
    addBorrowV3 l a s = none ↔ ∀ p ∈ l, p.1 ≠ 0 := by
  induction l with
  | nil => simp [addBorrowV3]
  | cons q rest ih =>
    obtain ⟨p, st⟩ := q
    by_cases hp : p = 0
    · subst hp
      simp [addBorrowV3]
    · rw [addBorrowV3, if_neg hp]
      cases hr : addBorrowV3 rest a s with
      | some rest' =>
        constructor
        · intro h
          exact Option.noConfusion h
        · intro h
          exfalso
          have hnone : addBorrowV3 rest a s = none :=
            ih.mpr fun p' hmem => h p' (List.mem_cons_of_mem _ hmem)
          rw [hnone] at hr
          exact Option.noConfusion hr
      | none =>
        constructor
        · intro _ q hq
          rcases List.mem_cons.mp hq with h | h
          · rw [h]
            exact hp
          · exact ih.mp hr q h
        · intro _
          rfl

theorem addBorrowV3_isSome (l : Arr) (a : Nat) (s : BorrowState)
    (h : ∃ p ∈ l, p.1 = 0) : ∃ l', addBorrowV3 l a s = some l' := by
  cases hr : addBorrowV3 l a s with
  | none =>
    obtain ⟨p, hmem, hp⟩ := h
    exact absurd hp ((addBorrowV3_none_iff l a s).mp hr p hmem)
  | some l' => exact ⟨l', rfl⟩

theorem addBorrowV3_find_self (l l' : Arr) (a : Nat) (s : BorrowState)
    (h : addBorrowV3 l a s = some l') (hn : arrFind l a = none) :
    arrFind l' a = some s := by
  induction l generalizing l' with
  | nil => exact Option.noConfusion h
  | cons q rest ih =>
    obtain ⟨p, st⟩ := q
    rw [arrFind] at hn
    by_cases hp : p = 0
    · rw [addBorrowV3, if_pos hp] at h
      obtain rfl : (a, s) :: rest = l' := by simpa using h
      simp [arrFind]
    · rw [addBorrowV3, if_neg hp] at h
      by_cases hpa : p = a
      · rw [if_pos hpa] at hn
        exact Option.noConfusion hn
      · rw [if_neg hpa] at hn
        cases hr : addBorrowV3 rest a s with
        | none =>
          rw [hr] at h
          exact Option.noConfusion h
        | some rest' =>
          rw [hr] at h
          obtain rfl : (p, st) :: rest' = l' := by simpa using h
          simp [arrFind, hpa, ih rest' hr hn]

theorem addBorrowV3_find_of_valid (l l' : Arr) (a : Nat)
    (h : addBorrowV3 l a .Valid = some l')
    (hv : ∀ t, arrFind l a = some t → t = .Valid) :
    arrFind l' a = some .Valid := by
  induction l generalizing l' with
  | nil => exact Option.noConfusion h
  | cons q rest ih =>
    obtain ⟨p, st⟩ := q
    by_cases hp : p = 0
    · rw [addBorrowV3, if_pos hp] at h
      obtain rfl : (a, .Valid) :: rest = l' := by simpa using h
      simp [arrFind]
    · rw [addBorrowV3, if_neg hp] at h
      cases hr : addBorrowV3 rest a .Valid with
      | none =>
        rw [hr] at h
        exact Option.noConfusion h
      | some rest' =>
        rw [hr] at h
        obtain rfl : (p, st) :: rest' = l' := by simpa using h
        by_cases hpa : p = a
        · have : st = .Valid := hv st (by rw [arrFind, if_pos hpa])
          subst this
          simp [arrFind, hpa]
        · rw [arrFind, if_neg hpa]
          refine ih rest' hr fun t ht => hv t ?_
          rw [arrFind, if_neg hpa]
          exact ht

theorem addBorrowV3_find_other (l l' : Arr) (a : Nat) (s : BorrowState)
    (x : Nat) (h : addBorrowV3 l a s = some l') (hx : x ≠ a) (h0 : x ≠ 0) :
    arrFind l' x = arrFind l x := by
  induction l generalizing l' with
  | nil => exact Option.noConfusion h
  | cons q rest ih =>
    obtain ⟨p, st⟩ := q
    by_cases hp : p = 0
    · rw [addBorrowV3, if_pos hp] at h
      obtain rfl : (a, s) :: rest = l' := by simpa using h
      subst hp
      simp [arrFind, Ne.symm hx, Ne.symm h0]
    · rw [addBorrowV3, if_neg hp] at h
      cases hr : addBorrowV3 rest a s with
      | none =>
        rw [hr] at h
        exact Option.noConfusion h
      | some rest' =>
        rw [hr] at h
        obtain rfl : (p, st) :: rest' = l' := by simpa using h
        by_cases hpx : p = x
        · simp [arrFind, hpx]
        · simp [arrFind, hpx, ih rest' hr]

theorem addBorrowV3_liveCount (l l' : Arr) (a : Nat) (s : BorrowState)
    (x : Nat) (h : addBorrowV3 l a s = some l') (h0 : x ≠ 0) :
    liveCount l' x = liveCount l x + (if x = a then 1 else 0) := by
  induction l generalizing l' with
  | nil => exact Option.noConfusion h
  | cons q rest ih =>
    obtain ⟨p, st⟩ := q
    by_cases hp : p = 0
    · rw [addBorrowV3, if_pos hp] at h
      obtain rfl : (a, s) :: rest = l' := by simpa using h
      subst hp
      by_cases hxa : x = a
      · subst hxa
        simp only [liveCount, if_pos rfl, if_neg (Ne.symm h0)]
        omega
      · simp only [liveCount, if_neg (fun h : a = x => hxa h.symm),
          if_neg (Ne.symm h0), if_neg hxa]
        omega
    · rw [addBorrowV3, if_neg hp] at h
      cases hr : addBorrowV3 rest a s with
      | none =>
        rw [hr] at h
        exact Option.noConfusion h
      | some rest' =>
        rw [hr] at h
        obtain rfl : (p, st) :: rest' = l' := by simpa using h
        simp [liveCount, ih rest' hr]
        omega

theorem addBorrowV3_zero_valid (l l' : Arr) (a : Nat) (s : BorrowState)
    (h : addBorrowV3 l a s = some l') (ha : a ≠ 0)
    (hz : ∀ p ∈ l, p.1 = 0 → p.2 = .Valid) :
    ∀ p ∈ l', p.1 = 0 → p.2 = .Valid := by
  induction l generalizing l' with
  | nil => exact Option.noConfusion h
  | cons q rest ih =>
    obtain ⟨p, st⟩ := q
    by_cases hp : p = 0
    · rw [addBorrowV3, if_pos hp] at h
      obtain rfl : (a, s) :: rest = l' := by simpa using h
      intro r hr h0
      rcases List.mem_cons.mp hr with h1 | h1
      · rw [h1] at h0
        exact absurd h0 ha
      · exact hz r (List.mem_cons_of_mem _ h1) h0
    · rw [addBorrowV3, if_neg hp] at h
      cases hrr : addBorrowV3 rest a s with
      | none =>
        rw [hrr] at h
        exact Option.noConfusion h
      | some rest' =>
        rw [hrr] at h
        obtain rfl : (p, st) :: rest' = l' := by simpa using h
        intro r hr h0
        rcases List.mem_cons.mp hr with h1 | h1
        · rw [h1] at h0
          exact absurd h0 hp
        · exact ih rest' hrr
            (fun r' hmem h0' => hz r' (List.mem_cons_of_mem _ hmem) h0')
            r h1 h0

theorem removeBorrowV3_find_self (l : Arr) (a : Nat) (ha : a ≠ 0)
    (hc : liveCount l a ≤ 1) : arrFind (removeBorrowV3 l a) a = none := by
  induction l with
  | nil => rfl
  | cons q rest ih =>
    obtain ⟨p, st⟩ := q
    rw [liveCount] at hc
    by_cases hp : p = a
    · subst hp
      rw [if_pos rfl] at hc
      rw [removeBorrowV3, if_pos rfl, arrFind, if_neg (Ne.symm ha),
        arrFind_eq_none_iff_liveCount]
      omega
    · rw [if_neg hp] at hc
      rw [removeBorrowV3, if_neg hp, arrFind, if_neg hp]
      exact ih (by omega)

theorem removeBorrowV3_find_other (l : Arr) (a x : Nat) (hx : x ≠ a)
    (h0 : x ≠ 0) : arrFind (removeBorrowV3 l a) x = arrFind l x := by
  induction l with
  | nil => rfl
  | cons q rest ih =>
    obtain ⟨p, st⟩ := q
    by_cases hp : p = a
    · subst hp
      rw [removeBorrowV3, if_pos rfl, arrFind, if_neg (Ne.symm h0), arrFind,
        if_neg (fun h : p = x => hx h.symm)]
    · by_cases hpx : p = x
      · rw [removeBorrowV3, if_neg hp, arrFind, if_pos hpx, arrFind,
          if_pos hpx]
      · rw [removeBorrowV3, if_neg hp, arrFind, if_neg hpx, arrFind,
          if_neg hpx, ih]

theorem removeBorrowV3_liveCount_le (l : Arr) (a x : Nat) (h0 : x ≠ 0) :
    liveCount (removeBorrowV3 l a) x ≤ liveCount l x := by
  induction l with
  | nil => simp [removeBorrowV3]
  | cons q rest ih =>
    obtain ⟨p, st⟩ := q
    by_cases hp : p = a
    · rw [removeBorrowV3, if_pos hp, liveCount, if_neg (Ne.symm h0),
        liveCount]
      omega
    · rw [removeBorrowV3, if_neg hp, liveCount, liveCount]
      omega

theorem removeBorrowV3_zero_valid (l : Arr) (a : Nat)
    (hz : ∀ p ∈ l, p.1 = 0 → p.2 = .Valid) :
    ∀ p ∈ removeBorrowV3 l a, p.1 = 0 → p.2 = .Valid := by
  induction l with
  | nil => simp [removeBorrowV3]
  | cons q rest ih =>
    obtain ⟨p, st⟩ := q
    intro r hr h0
    by_cases hp : p = a
    · rw [removeBorrowV3, if_pos hp] at hr
      rcases List.mem_cons.mp hr with h1 | h1
      · rw [h1]
      · exact hz r (List.mem_cons_of_mem _ h1) h0
    · rw [removeBorrowV3, if_neg hp] at hr
      rcases List.mem_cons.mp hr with h1 | h1
      · rw [h1] at h0 ⊢
        exact hz (p, st) (List.mem_cons_self _ _) h0
      · exact ih (fun r' hmem h0' => hz r' (List.mem_cons_of_mem _ hmem) h0')
          r h1 h0

theorem setOwnedV3_find_self (l : Arr) (a : Nat) :
    arrFind (setOwnedV3 l a) a = (arrFind l a).map fun _ => BorrowState.Owned := by
  induction l with
  | nil => rfl
  | cons q rest ih =>
    obtain ⟨p, st⟩ := q
    by_cases hp : p = a
    · rw [setOwnedV3, if_pos hp, arrFind, if_pos hp, arrFind, if_pos hp]
      rfl
    · rw [setOwnedV3, if_neg hp, arrFind, if_neg hp, arrFind, if_neg hp, ih]

theorem setOwnedV3_find_other (l : Arr) (a x : Nat) (hx : x ≠ a) :
    arrFind (setOwnedV3 l a) x = arrFind l x := by
  induction l with
  | nil => rfl
  | cons q rest ih =>
    obtain ⟨p, st⟩ := q
    by_cases hp : p = a
    · subst hp
      rw [setOwnedV3, if_pos rfl, arrFind, if_neg (fun h : p = x => hx h.symm),
        arrFind, if_neg (fun h : p = x => hx h.symm)]
    · by_cases hpx : p = x
      · rw [setOwnedV3, if_neg hp, arrFind, if_pos hpx, arrFind, if_pos hpx]
      · rw [setOwnedV3, if_neg hp, arrFind, if_neg hpx, arrFind, if_neg hpx,
          ih]

theorem setOwnedV3_liveCount (l : Arr) (a x : Nat) :
    liveCount (setOwnedV3 l a) x = liveCount l x := by
  induction l with
  | nil => rfl
  | cons q rest ih =>
    obtain ⟨p, st⟩ := q
    by_cases hp : p = a
    · rw [setOwnedV3, if_pos hp, liveCount, liveCount]
    · rw [setOwnedV3, if_neg hp, liveCount, liveCount, ih]

theorem setOwnedV3_zero_valid (l : Arr) (a : Nat) (ha : a ≠ 0)
    (hz : ∀ p ∈ l, p.1 = 0 → p.2 = .Valid) :
    ∀ p ∈ setOwnedV3 l a, p.1 = 0 → p.2 = .Valid := by
  induction l with
  | nil => simp [setOwnedV3]
  | cons q rest ih =>
    obtain ⟨p, st⟩ := q
    intro r hr h0
    by_cases hp : p = a
    · rw [setOwnedV3, if_pos hp] at hr
      rcases List.mem_cons.mp hr with h1 | h1
      · rw [h1] at h0
        exact absurd (hp ▸ h0) ha
      · exact hz r (List.mem_cons_of_mem _ h1) h0
    · rw [setOwnedV3, if_neg hp] at hr
      rcases List.mem_cons.mp hr with h1 | h1
      · rw [h1] at h0 ⊢
        exact hz (p, st) (List.mem_cons_self _ _) h0
      · exact ih (fun r' hmem h0' => hz r' (List.mem_cons_of_mem _ hmem) h0')
          r h1 h0

theorem emptyArr_find (n : Nat) (a : Nat) (ha : a ≠ 0) :
    arrFind (emptyArr n) a = none := by
  induction n with
  | zero => rfl
  | succ k ih =>
    rw [emptyArr, List.replicate_succ, arrFind, if_neg (Ne.symm ha)]
    exact ih

theorem emptyArr_liveCount (n : Nat) (a : Nat) (ha : a ≠ 0) :
    liveCount (emptyArr n) a = 0 := by
  rw [← arrFind_eq_none_iff_liveCount]
  exact emptyArr_find n a ha

theorem emptyArr_zero_valid (n : Nat) :
    ∀ p ∈ emptyArr n, p.1 = 0 → p.2 = .Valid := by
  intro p hp h0
  rw [emptyArr] at hp
  rw [List.eq_of_mem_replicate hp]

/-! ### The simulation between the two registry variants -/

theorem mapFind_zero (m : Reg) (hnz : ∀ p ∈ m, p.1 ≠ 0) :
    mapFind m 0 = none := by
  rw [mapFind_eq_none_iff]
  intro hmem
  obtain ⟨p, hp, hp0⟩ := List.mem_map.mp hmem
  exact hnz p hp hp0

theorem arrFind_mem (l : Arr) (a : Nat) (s : BorrowState)
    (h : arrFind l a = some s) : (a, s) ∈ l := by
  induction l with
  | nil => exact Option.noConfusion h
  | cons q rest ih =>
    obtain ⟨p, st⟩ := q
    rw [arrFind] at h
    by_cases hp : p = a
    · rw [if_pos hp] at h
      have hst : st = s := by simpa using h
      subst hst hp
      exact List.mem_cons_self _ _
    · rw [if_neg hp] at h
      exact List.mem_cons_of_mem _ (ih h)

theorem setOwned_keys_nz (m : Reg) (a : Nat) (hnz : ∀ p ∈ m, p.1 ≠ 0) :
    ∀ p ∈ setOwned m a, p.1 ≠ 0 := by
  induction m with
  | nil => simp [setOwned]
  | cons q rest ih =>
    obtain ⟨k, v⟩ := q
    intro p hp
    by_cases hk : k = a
    · rw [setOwned, if_pos hk] at hp
      rcases List.mem_cons.mp hp with h1 | h1
      · rw [h1]
        exact hnz (k, v) (List.mem_cons_self _ _)
      · exact hnz p (List.mem_cons_of_mem _ h1)
    · rw [setOwned, if_neg hk] at hp
      rcases List.mem_cons.mp hp with h1 | h1
      · rw [h1]
        exact hnz (k, v) (List.mem_cons_self _ _)
      · exact ih (fun r hr => hnz r (List.mem_cons_of_mem _ hr)) p h1

theorem removeBorrow_mem (m : Reg) (a : Nat) :
    ∀ p ∈ removeBorrow m a, p ∈ m := by
  intro p hp
  unfold removeBorrow at hp
  cases hf : mapFind m a with
  | none =>
    rw [hf] at hp
    exact hp
  | some s =>
    rw [hf] at hp
    exact (eraseKey_sublist m a).subset hp

theorem simInv_check (m : Reg) (l : Arr) (h : SimInv m l) (a : Nat) :
    checkBorrow m a = checkBorrowV3 l a := by
  obtain ⟨hagree, hnz, hnd, huniq, hzv⟩ := h
  by_cases ha : a = 0
  · subst ha
    rw [checkBorrow, mapFind_zero m hnz, checkBorrowV3_zero]
  · rw [checkBorrowV3_eq_find l a ha (huniq a ha), checkBorrow, hagree a ha]
    cases arrFind l a <;> rfl

theorem simInv_checkOwned (m : Reg) (l : Arr) (h : SimInv m l) (a : Nat) :
    checkOwned m a = checkOwnedV3 l a := by
  obtain ⟨hagree, hnz, hnd, huniq, hzv⟩ := h
  by_cases ha : a = 0
  · subst ha
    rw [checkOwned, mapFind_zero m hnz, checkOwnedV3_eq_find]
    cases hf : arrFind l 0 with
    | none => rfl
    | some s =>
      have hv : s = .Valid := hzv (0, s) (arrFind_mem l 0 s hf) rfl
      subst hv
      rfl
  · rw [checkOwned, hagree a ha, checkOwnedV3_eq_find]
    cases arrFind l a <;> rfl

theorem simInv_step (m m' : Reg) (l l' : Arr) (op : RegOp)
    (h : SimInv m l) (hop : op.addr ≠ 0)
    (hm : mapStep m op = some m') (hl : arrStep l op = some l') :
    SimInv m' l' := by
  obtain ⟨hagree, hnz, hnd, huniq, hzv⟩ := h
  cases op with
  | register a s =>
    have ha : a ≠ 0 := hop
    rw [mapStep, addBorrow] at hm
    rw [arrStep] at hl
    by_cases hfind : mapFind m a = none
    · rw [if_pos hfind] at hm
      obtain rfl : (a, s) :: m = m' := by simpa using hm
      have hfArr : arrFind l a = none := by
        rw [← hagree a ha]
        exact hfind
      refine ⟨?_, ?_, ?_, ?_, ?_⟩
      · intro x hx
        by_cases hxa : x = a
        · subst hxa
          rw [mapFind, if_pos rfl, addBorrowV3_find_self l l' x s hl hfArr]
        · rw [mapFind, if_neg (fun h : a = x => hxa h.symm),
            addBorrowV3_find_other l l' a s x hl hxa hx, hagree x hx]
      · intro p hp
        rcases List.mem_cons.mp hp with h1 | h1
        · rw [h1]
          exact ha
        · exact hnz p h1
      · rw [List.map_cons, List.nodup_cons]
        exact ⟨(mapFind_eq_none_iff m a).mp hfind, hnd⟩
      · intro x hx
        rw [addBorrowV3_liveCount l l' a s x hl hx]
        by_cases hxa : x = a
        · subst hxa
          have hz : liveCount l x = 0 := by
            rw [← arrFind_eq_none_iff_liveCount]
            exact hfArr
          rw [if_pos rfl]
          omega
        · rw [if_neg hxa]
          have := huniq x hx
          omega
      · exact addBorrowV3_zero_valid l l' a s hl ha hzv
    · rw [if_neg hfind] at hm
      exact Option.noConfusion hm
  | unregister a =>
    have ha : a ≠ 0 := hop
    rw [mapStep] at hm
    rw [arrStep] at hl
    obtain rfl : removeBorrow m a = m' := by simpa using hm
    obtain rfl : removeBorrowV3 l a = l' := by simpa using hl
    refine ⟨?_, ?_, ?_, ?_, ?_⟩
    · intro x hx
      by_cases hxa : x = a
      · subst hxa
        rw [removeBorrow_find_self m x hnd,
          removeBorrowV3_find_self l x hx (huniq x hx)]
      · rw [removeBorrow_find_other m a x hxa,
          removeBorrowV3_find_other l a x hxa hx, hagree x hx]
    · intro p hp
      exact hnz p (removeBorrow_mem m a p hp)
    · exact removeBorrow_nodup m a hnd
    · intro x hx
      exact le_trans (removeBorrowV3_liveCount_le l a x hx) (huniq x hx)
    · exact removeBorrowV3_zero_valid l a hzv
  | markOwned a =>
    have ha : a ≠ 0 := hop
    rw [mapStep] at hm
    rw [arrStep] at hl
    obtain rfl : setOwned m a = m' := by simpa using hm
    obtain rfl : setOwnedV3 l a = l' := by simpa using hl
    refine ⟨?_, ?_, ?_, ?_, ?_⟩
    · intro x hx
      by_cases hxa : x = a
      · subst hxa
        rw [setOwned_find_self, setOwnedV3_find_self, hagree x hx]
      · rw [setOwned_find_other m a x hxa, setOwnedV3_find_other l a x hxa,
          hagree x hx]
    · exact setOwned_keys_nz m a hnz
    · rw [setOwned_keys]
      exact hnd
    · intro x hx
      rw [setOwnedV3_liveCount]
      exact huniq x hx
    · exact setOwnedV3_zero_valid l a ha hzv

theorem simInv_run (ops : List RegOp) (m : Reg) (l : Arr)
    (h : SimInv m l) (hops : ∀ op ∈ ops, op.addr ≠ 0)
    (hm : (runMap m ops).2 = true) (hl : (runArr l ops).2 = true) :
    SimInv (runMap m ops).1 (runArr l ops).1 := by
  induction ops generalizing m l with
  | nil => exact h
  | cons op rest ih =>
    cases hstep : mapStep m op with
    | none =>
      rw [runMap, hstep] at hm
      exact absurd hm (by simp)
    | some m' =>
      cases hstepA : arrStep l op with
      | none =>
        rw [runArr, hstepA] at hl
        exact absurd hl (by simp)
      | some l' =>
        rw [runMap, hstep] at hm ⊢
        rw [runArr, hstepA] at hl ⊢
        exact ih m' l'
          (simInv_step m m' l l' op h (hops op (List.mem_cons_self _ _))
            hstep hstepA)
          (fun o ho => hops o (List.mem_cons_of_mem _ ho)) hm hl

theorem simInv_init (n : Nat) : SimInv [] (emptyArr n) := by
  refine ⟨?_, ?_, ?_, ?_, ?_⟩
  · intro a ha
    rw [emptyArr_find n a ha]
    rfl
  · intro p hp
    exact absurd hp (List.not_mem_nil p)
  · exact List.nodup_nil
  · intro a ha
    rw [emptyArr_liveCount n a ha]
    omega
  · exact emptyArr_zero_valid n

/-! ### Claim theorems -/

/-- C3, counterexample: in the hash-map registry reached by `register(1,
Valid)` from the empty registry, an entry for address 1 exists and yet the
query returns `Valid`, so "query returns Valid iff no entry exists" fails. -/
theorem c3_counterexample :
    addBorrow [] 1 .Valid = some [(1, .Valid)]
    ∧ checkBorrow [(1, .Valid)] 1 = .Valid
    ∧ mapFind [(1, .Valid)] 1 ≠ none := by
  refine ⟨rfl, rfl, ?_⟩
  decide

/-- C3, amended: for every address `a`, the registry query returns `Valid`
iff `a` has no entry or the entry for `a` has state `Valid`. -/
theorem c3_query_valid_iff (m : Reg) (a : Nat) :
    checkBorrow m a = .Valid
      ↔ mapFind m a = none ∨ mapFind m a = some .Valid := by
  unfold checkBorrow
  cases mapFind m a with
  | none => simp
  | some s => cases s <;> simp

/-- C5: over the hash-map registry, constructing an exclusive-access handle
on a fresh address succeeds and registers `MutableBorrowed`; a second
exclusive-access handle then fails with the recoverable aliasing-violation
fault, leaving the registry unchanged; destroying the first handle
deregisters the address, after which a new exclusive-access handle succeeds
again. -/
theorem c5_exclusive_cycle (bc : Reg) (a : Nat) (h : mapFind bc a = none) :
    mutRefNew bc a = some (.ok ((a, .MutableBorrowed) :: bc))
    ∧ mutRefNew ((a, .MutableBorrowed) :: bc) a
        = some (.error
            ("cannot borrow as mutable more than once, already borrowed",
              (a, .MutableBorrowed) :: bc))
    ∧ mutRefDrop ((a, .MutableBorrowed) :: bc) a = bc
    ∧ mutRefNew (mutRefDrop ((a, .MutableBorrowed) :: bc) a) a
        = some (.ok ((a, .MutableBorrowed) :: bc)) := by
  have hcb : checkBorrow bc a = .Valid := by
    unfold checkBorrow
    rw [h]
  have h1 : mutRefNew bc a = some (.ok ((a, .MutableBorrowed) :: bc)) := by
    simp [mutRefNew, hcb, addBorrow, h]
  have h2 : checkBorrow ((a, .MutableBorrowed) :: bc) a = .MutableBorrowed := by
    unfold checkBorrow
    simp [mapFind]
  have h3 : mutRefDrop ((a, .MutableBorrowed) :: bc) a = bc := by
    simp [mutRefDrop, removeBorrow, mapFind, eraseKey]
  refine ⟨h1, ?_, h3, ?_⟩
  · simp [mutRefNew, h2]
  · rw [h3]
    exact h1

/-- C5 witness: the cycle at the empty registry and address 1. -/
theorem c5_exclusive_cycle_witness :
    mapFind [] 1 = none
    ∧ mutRefNew [] 1 = some (.ok [(1, .MutableBorrowed)]) :=
  ⟨rfl, (c5_exclusive_cycle [] 1 rfl).1⟩

/-- C8: the array-variant register has no defined successor state exactly
when every capacity slot is occupied: capacity exhaustion takes the fatal
precondition-violation channel (`none`), never a recoverable error value and
never a silently modified registry. -/
theorem c8_capacity_fatal (l : Arr) (a : Nat) (s : BorrowState) :
    addBorrowV3 l a s = none ↔ ∀ p ∈ l, p.1 ≠ 0 :=
  addBorrowV3_none_iff l a s

/-- C9: over the permissive hash-map registry, `register(a, s)` followed by
`unregister(a)` on a registry without an entry for `a` leaves the query at
`Valid`; unregistering an absent address is a silent no-op; and `unregister`
is idempotent. -/
theorem c9_register_unregister (m : Reg) (a : Nat) (s : BorrowState)
    (hnd : (m.map Prod.fst).Nodup) :
    (mapFind m a = none →
      ∃ m₁, addBorrow m a s = some m₁
        ∧ checkBorrow (removeBorrow m₁ a) a = .Valid)
    ∧ (mapFind m a = none → removeBorrow m a = m)
    ∧ removeBorrow (removeBorrow m a) a = removeBorrow m a := by
  refine ⟨?_, ?_, ?_⟩
  · intro h
    refine ⟨(a, s) :: m, by simp [addBorrow, h], ?_⟩
    have hrem : removeBorrow ((a, s) :: m) a = m := by
      simp [removeBorrow, mapFind, eraseKey]
    rw [hrem]
    unfold checkBorrow
    rw [h]
  · intro h
    exact removeBorrow_of_find_none m a h
  · exact removeBorrow_of_find_none (removeBorrow m a) a
      (removeBorrow_find_self m a hnd)

/-- C9 witness: at the registry `[(2, Owned)]`, address 1, state
`MutableBorrowed`. -/
theorem c9_register_unregister_witness :
    ((([(2, BorrowState.Owned)] : Reg).map Prod.fst).Nodup)
    ∧ ((mapFind [(2, BorrowState.Owned)] 1 = none →
        ∃ m₁, addBorrow [(2, BorrowState.Owned)] 1 .MutableBorrowed = some m₁
          ∧ checkBorrow (removeBorrow m₁ 1) 1 = .Valid)
      ∧ (mapFind [(2, BorrowState.Owned)] 1 = none →
          removeBorrow [(2, BorrowState.Owned)] 1 = [(2, BorrowState.Owned)])
      ∧ removeBorrow (removeBorrow [(2, BorrowState.Owned)] 1) 1
          = removeBorrow [(2, BorrowState.Owned)] 1) :=
  ⟨by decide,
    c9_register_unregister [(2, BorrowState.Owned)] 1 .MutableBorrowed
      (by decide)⟩

/-- C1, counterexample: from the empty hash-map registry, creating a shared
handle over address 1 registers `(1, Valid)`; while it is live, constructing
an exclusive-access handle does not raise a recoverable aliasing-violation
fault: the borrow-state check passes (the stored state is `Valid`) and the
registry's double-register assertion aborts instead (`none`). -/
theorem c1_counterexample :
    refNew [] 1 = some (.ok [(1, .Valid)])
    ∧ mutRefNew [(1, .Valid)] 1 = none
    ∧ ∀ e bc', mutRefNew [(1, .Valid)] 1 ≠ some (.error (e, bc')) := by
  refine ⟨rfl, rfl, ?_⟩
  intro e bc' h
  exact Option.noConfusion h

/-- C1, amended: for a fresh nonzero address, shared-handle construction
registers `(a, Valid)`; while the shared handle is live, exclusive-handle
construction passes the aliasing check and hits the registry's fatal
double-register assertion instead of raising a recoverable fault; destroying
the shared handle deregisters the address, after which exclusive-handle
construction succeeds. -/
theorem c1_shared_then_exclusive (bc : Reg) (a : Nat) (ha : a ≠ 0)
    (h : mapFind bc a = none) :
    refNew bc a = some (.ok ((a, .Valid) :: bc))
    ∧ mutRefNew ((a, .Valid) :: bc) a = none
    ∧ refDrop ((a, .Valid) :: bc) a = bc
    ∧ mutRefNew bc a = some (.ok ((a, .MutableBorrowed) :: bc)) := by
  have hcb : checkBorrow bc a = .Valid := by
    unfold checkBorrow
    rw [h]
  refine ⟨?_, ?_, ?_, ?_⟩
  · simp [refNew, ha, addBorrow, h]
  · have hc1 : checkBorrow ((a, .Valid) :: bc) a = .Valid := by
      unfold checkBorrow
      simp [mapFind]
    have hf1 : mapFind ((a, .Valid) :: bc) a = some .Valid := by
      simp [mapFind]
    simp [mutRefNew, hc1, addBorrow, hf1]
  · simp [refDrop, ha, removeBorrow, mapFind, eraseKey]
  · simp [mutRefNew, hcb, addBorrow, h]

/-- C1 witness: the amended scenario at the empty registry and address 1. -/
theorem c1_shared_then_exclusive_witness :
    (1 : Nat) ≠ 0
    ∧ mapFind [] 1 = none
    ∧ mutRefNew [(1, BorrowState.Valid)] 1 = none :=
  ⟨by decide, rfl, (c1_shared_then_exclusive [] 1 (by decide) rfl).2.1⟩

/-- C2, counterexample: in the hash-map variant, with address 1 exclusively
borrowed, shared-handle construction does not raise a recoverable reportable
fault: no borrow-state check happens and the registry's double-register
assertion aborts (`none`). -/
theorem c2_counterexample :
    refNew [(1, .MutableBorrowed)] 1 = none
    ∧ ∀ e bc', refNew [(1, .MutableBorrowed)] 1 ≠ some (.error (e, bc')) := by
  refine ⟨rfl, ?_⟩
  intro e bc' h
  exact Option.noConfusion h

/-- C2, amended: in the array variant, shared-handle construction checks the
registry, fails with the recoverable fault "Invalid borrow in Ref
constructor" when the current state is not `Valid` — in particular when an
exclusive borrow is live — and otherwise, capacity permitting, registers the
address with state `Valid`; in the hash-map variant, shared-handle
construction performs no borrow-state check, and a live exclusive borrow
aborts via the registry assertion instead. -/
theorem c2_shared_construction (l : Arr) (bc : Reg) (a : Nat) (ha : a ≠ 0) :
    (checkBorrowV3 l a ≠ .Valid →
      refV3New l a = some (.error ("Invalid borrow in Ref constructor", l)))
    ∧ (arrFind l a = some .MutableBorrowed →
      refV3New l a = some (.error ("Invalid borrow in Ref constructor", l)))
    ∧ (checkBorrowV3 l a = .Valid → (∃ p ∈ l, p.1 = 0) →
      ∃ l', refV3New l a = some (.ok l') ∧ arrFind l' a = some .Valid)
    ∧ (mapFind bc a = some .MutableBorrowed → refNew bc a = none) := by
  refine ⟨?_, ?_, ?_, ?_⟩
  · intro hne
    unfold refV3New
    rw [if_pos hne]
  · intro hf
    have hmb : checkBorrowV3 l a = .MutableBorrowed :=
      checkBorrowV3_of_find_nonvalid l a .MutableBorrowed ha hf (by decide)
    unfold refV3New
    rw [if_pos (by rw [hmb]; decide)]
  · intro hv hcap
    obtain ⟨l', hl'⟩ := addBorrowV3_isSome l a .Valid hcap
    refine ⟨l', ?_, ?_⟩
    · simp [refV3New, hv, hl']
    · refine addBorrowV3_find_of_valid l l' a hl' ?_
      intro t ht
      by_contra hne
      exact hne ((checkBorrowV3_of_find_nonvalid l a t ha ht hne).symm.trans hv)
  · intro hf
    simp [refNew, ha, addBorrow, hf]

/-- C2 witness: the error case at `[(1, MutableBorrowed)]`, the success case
at `[(0, Valid)]`, and the hash-map assertion case, all at address 1. -/
theorem c2_shared_construction_witness :
    refV3New [(1, BorrowState.MutableBorrowed)] 1
      = some (.error ("Invalid borrow in Ref constructor",
          [(1, BorrowState.MutableBorrowed)]))
    ∧ (∃ l', refV3New [(0, BorrowState.Valid)] 1 = some (.ok l')
        ∧ arrFind l' 1 = some .Valid)
    ∧ refNew [(1, BorrowState.MutableBorrowed)] 1 = none := by
  refine ⟨?_, ?_, ?_⟩
  · exact (c2_shared_construction [(1, .MutableBorrowed)] [] 1
      (by decide)).2.1 (by decide)
  · exact (c2_shared_construction [(0, .Valid)] [] 1 (by decide)).2.2.1 rfl
      ⟨(0, .Valid), List.mem_cons_self _ _, rfl⟩
  · exact (c2_shared_construction [] [(1, .MutableBorrowed)] 1
      (by decide)).2.2.2 rfl

/-- C10: every handle operation that raises an aliasing-violation fault
(shared-handle move-assignment, exclusive-handle construction, array-variant
shared-handle construction, claiming ownership) performs its failing
borrow-state check before any registry mutation, so the registry carried by
the fault equals the registry before the call. -/
theorem c10_error_atomicity (bc : Reg) (l : Arr) (sD oD a : Nat) (o : OwnH)
    (e₁ e₂ e₃ e₄ : String) (bc₁ bc₂ : Reg) (l₁ l₂ : Arr) :
    (refMoveAssign bc sD oD = some (.error (e₁, bc₁)) → bc₁ = bc)
    ∧ (mutRefNew bc a = some (.error (e₂, bc₂)) → bc₂ = bc)
    ∧ (refV3New l a = some (.error (e₃, l₁)) → l₁ = l)
    ∧ (ownSetOwned l o = .error (e₄, l₂) → l₂ = l) := by
  refine ⟨?_, ?_, ?_, ?_⟩
  · intro h
    unfold refMoveAssign at h
    by_cases hc : checkBorrow bc oD ≠ .Valid
    · rw [if_pos hc] at h
      simp only [Option.some.injEq, Except.error.injEq, Prod.mk.injEq] at h
      exact h.2.symm
    · rw [if_neg hc] at h
      cases haz : addBorrow (removeBorrow bc sD) oD .Valid with
      | none =>
        rw [haz] at h
        exact Option.noConfusion h
      | some bc' =>
        rw [haz] at h
        simp only [Option.some.injEq] at h
        exact Except.noConfusion h
  · intro h
    unfold mutRefNew at h
    by_cases hc : checkBorrow bc a ≠ .Valid
    · rw [if_pos hc] at h
      simp only [Option.some.injEq, Except.error.injEq, Prod.mk.injEq] at h
      exact h.2.symm
    · rw [if_neg hc] at h
      cases haz : addBorrow bc a .MutableBorrowed with
      | none =>
        rw [haz] at h
        exact Option.noConfusion h
      | some bc' =>
        rw [haz] at h
        simp only [Option.some.injEq] at h
        exact Except.noConfusion h
  · intro h
    unfold refV3New at h
    by_cases hc : checkBorrowV3 l a ≠ .Valid
    · rw [if_pos hc] at h
      simp only [Option.some.injEq, Except.error.injEq, Prod.mk.injEq] at h
      exact h.2.symm
    · rw [if_neg hc] at h
      cases haz : addBorrowV3 l a .Valid with
      | none =>
        rw [haz] at h
        exact Option.noConfusion h
      | some l' =>
        rw [haz] at h
        simp only [Option.some.injEq] at h
        exact Except.noConfusion h
  · intro h
    unfold ownSetOwned at h
    by_cases hc : checkBorrowV3 l o.data ≠ .Valid
    · rw [if_pos hc] at h
      simp only [Except.error.injEq, Prod.mk.injEq] at h
      exact h.2.symm
    · rw [if_neg hc] at h
      exact Except.noConfusion h

/-- C10 witness: each of the four operations raising its fault over the
registry `[(2, MutableBorrowed)]`, which the fault returns unchanged. -/
theorem c10_error_atomicity_witness :
    refMoveAssign [(2, BorrowState.MutableBorrowed)] 5 2
      = some (.error ("cannot move value while it is borrowed",
          [(2, BorrowState.MutableBorrowed)]))
    ∧ mutRefNew [(2, BorrowState.MutableBorrowed)] 2
      = some (.error
          ("cannot borrow as mutable more than once, already borrowed",
            [(2, BorrowState.MutableBorrowed)]))
    ∧ refV3New [(2, BorrowState.MutableBorrowed)] 2
      = some (.error ("Invalid borrow in Ref constructor",
          [(2, BorrowState.MutableBorrowed)]))
    ∧ ownSetOwned [(2, BorrowState.MutableBorrowed)] ⟨2, false⟩
      = .error ("setting owned of borrowed data",
          [(2, BorrowState.MutableBorrowed)])
    ∧ ([(2, BorrowState.MutableBorrowed)] : Reg)
        = [(2, BorrowState.MutableBorrowed)] :=
  ⟨rfl, rfl, rfl, rfl,
    (c10_error_atomicity [(2, .MutableBorrowed)] [(2, .MutableBorrowed)] 5 2 2
      ⟨2, false⟩ "cannot move value while it is borrowed"
      "cannot borrow as mutable more than once, already borrowed"
      "Invalid borrow in Ref constructor" "setting owned of borrowed data"
      [(2, .MutableBorrowed)] [(2, .MutableBorrowed)]
      [(2, .MutableBorrowed)] [(2, .MutableBorrowed)]).1 rfl⟩

/-- C4, counterexample: in the array variant, registering address 1 twice
from a fresh capacity-2 registry succeeds — no check guards `register` — and
leaves two simultaneous entries for address 1. -/
theorem c4_counterexample :
    (runArr (emptyArr 2) [.register 1 .Valid, .register 1 .Valid]).2 = true
    ∧ liveCount
        (runArr (emptyArr 2) [.register 1 .Valid, .register 1 .Valid]).1 1
        = 2 := by
  refine ⟨rfl, rfl⟩

/-- C4, amended: in the hash-map variant, `register` asserts that no entry
exists and every register/unregister/mark-owned sequence preserves key
uniqueness, so at most one entry exists per address; the array variant's
`register` performs no such check, and duplicate entries can arise. -/
theorem c4_map_unique (ops : List RegOp) (m : Reg)
    (h : (m.map Prod.fst).Nodup) : ((runMap m ops).1.map Prod.fst).Nodup := by
  induction ops generalizing m with
  | nil => exact h
  | cons op rest ih =>
    cases hstep : mapStep m op with
    | none =>
      rw [runMap, hstep]
      exact h
    | some m' =>
      rw [runMap, hstep]
      refine ih m' ?_
      cases op with
      | register a s =>
        rw [mapStep, addBorrow] at hstep
        by_cases hf : mapFind m a = none
        · rw [if_pos hf] at hstep
          obtain rfl : (a, s) :: m = m' := by simpa using hstep
          rw [List.map_cons, List.nodup_cons]
          exact ⟨(mapFind_eq_none_iff m a).mp hf, h⟩
        · rw [if_neg hf] at hstep
          exact Option.noConfusion hstep
      | unregister a =>
        rw [mapStep] at hstep
        obtain rfl : removeBorrow m a = m' := by simpa using hstep
        exact removeBorrow_nodup m a h
      | markOwned a =>
        rw [mapStep] at hstep
        obtain rfl : setOwned m a = m' := by simpa using hstep
        rw [setOwned_keys]
        exact h

/-- C4 witness: key uniqueness after running a double-register sequence on
the empty hash-map registry (the second register faults, leaving the unique
entry in place). -/
theorem c4_map_unique_witness :
    ((([] : Reg)).map Prod.fst).Nodup
    ∧ (((runMap [] [RegOp.register 1 .Valid, RegOp.register 1 .Valid]).1).map
        Prod.fst).Nodup :=
  ⟨by decide,
    c4_map_unique [RegOp.register 1 .Valid, RegOp.register 1 .Valid] []
      (by decide)⟩

/-- C6: moving an exclusive-ownership handle whose `is_owner` query is true
(with its address nonnull and registered at most once): after the move the
source's `is_owner` is false and the destination's `is_owner` is true;
destroying the source leaves the registry untouched and frees nothing;
destroying the destination frees the pointee and removes the registry
entry. -/
theorem c6_own_move (l : Arr) (o : OwnH) (h : ownIsOwner l o = true)
    (h0 : o.data ≠ 0) (hu : liveCount l o.data ≤ 1) :
    ownIsOwner l (ownMove o).2 = false
    ∧ ownIsOwner l (ownMove o).1 = true
    ∧ ownDrop l (ownMove o).2 = (l, false)
    ∧ (ownDrop l (ownMove o).1).2 = true
    ∧ arrFind (ownDrop l (ownMove o).1).1 o.data = none := by
  have hown : o.owner = true := by
    unfold ownIsOwner at h
    cases ho : o.owner with
    | true => rfl
    | false =>
      rw [ho] at h
      exact Bool.noConfusion h
  refine ⟨rfl, h, rfl, ?_, ?_⟩
  · simp [ownDrop, ownMove, hown]
  · simp only [ownDrop, ownMove, hown, if_pos]
    exact removeBorrowV3_find_self l o.data h0 hu

/-- C6 witness: the move at the registry `[(1, Owned)]` with the owner handle
over address 1. -/
theorem c6_own_move_witness :
    ownIsOwner [(1, BorrowState.Owned)] ⟨1, true⟩ = true
    ∧ (1 : Nat) ≠ 0
    ∧ liveCount [(1, BorrowState.Owned)] 1 ≤ 1
    ∧ arrFind (ownDrop [(1, BorrowState.Owned)]
        (ownMove ⟨1, true⟩).1).1 1 = none :=
  ⟨by decide, by decide, by decide,
    (c6_own_move [(1, .Owned)] ⟨1, true⟩ (by decide) (by decide)
      (by decide)).2.2.2.2⟩

/-- C7: starting from fresh registries, any run of the same
register/unregister/mark-owned sequence over nonnull addresses on which both
variants complete without a fatal fault (in particular, every sequence of
registers on distinct fresh addresses that stays within the array's
capacity) leaves the hash-map and fixed-capacity-array registries observably
equivalent: `query` and `is_owned` agree on every address. -/
theorem c7_variant_equivalence (n : Nat) (ops : List RegOp) (a : Nat)
    (hops : ∀ op ∈ ops, op.addr ≠ 0)
    (hm : (runMap [] ops).2 = true)
    (hl : (runArr (emptyArr n) ops).2 = true) :
    checkBorrow (runMap [] ops).1 a
        = checkBorrowV3 (runArr (emptyArr n) ops).1 a
    ∧ checkOwned (runMap [] ops).1 a
        = checkOwnedV3 (runArr (emptyArr n) ops).1 a := by
  have hinv := simInv_run ops [] (emptyArr n) (simInv_init n) hops hm hl
  exact ⟨simInv_check _ _ hinv a, simInv_checkOwned _ _ hinv a⟩

/-- C7 witness: a four-operation run at capacity 2, observed at address 2. -/
theorem c7_variant_equivalence_witness :
    (∀ op ∈ ([RegOp.register 1 .MutableBorrowed, RegOp.register 2 .Valid,
        RegOp.unregister 1, RegOp.markOwned 2] : List RegOp), op.addr ≠ 0)
    ∧ (runMap [] [RegOp.register 1 .MutableBorrowed, RegOp.register 2 .Valid,
        RegOp.unregister 1, RegOp.markOwned 2]).2 = true
    ∧ (runArr (emptyArr 2) [RegOp.register 1 .MutableBorrowed,
        RegOp.register 2 .Valid, RegOp.unregister 1,
        RegOp.markOwned 2]).2 = true
    ∧ (checkBorrow (runMap [] [RegOp.register 1 .MutableBorrowed,
          RegOp.register 2 .Valid, RegOp.unregister 1,
          RegOp.markOwned 2]).1 2
        = checkBorrowV3 (runArr (emptyArr 2)
            [RegOp.register 1 .MutableBorrowed, RegOp.register 2 .Valid,
              RegOp.unregister 1, RegOp.markOwned 2]).1 2
      ∧ checkOwned (runMap [] [RegOp.register 1 .MutableBorrowed,
          RegOp.register 2 .Valid, RegOp.unregister 1,
          RegOp.markOwned 2]).1 2
        = checkOwnedV3 (runArr (emptyArr 2)
            [RegOp.register 1 .MutableBorrowed, RegOp.register 2 .Valid,
              RegOp.unregister 1, RegOp.markOwned 2]).1 2) := by
  refine ⟨?_, rfl, rfl, ?_⟩
  · intro op hop
    simp only [List.mem_cons, List.not_mem_nil, or_false] at hop
    rcases hop with h | h | h | h <;> subst h <;> decide
  · exact c7_variant_equivalence 2
      [RegOp.register 1 .MutableBorrowed, RegOp.register 2 .Valid,
        RegOp.unregister 1, RegOp.markOwned 2] 2
      (by intro op hop
          simp only [List.mem_cons, List.not_mem_nil, or_false] at hop
          rcases hop with h | h | h | h <;> subst h <;> decide)
      rfl rfl
